import Mathlib

/-!
Verification of the ddns library (github.com/Travis-Britz/ddns).

The Go source is shallowly embedded below.  IP addresses (Go `netip.Addr`)
are modelled by the inductive `Ddns.Addr`; external collaborators
(the HTTP transport, `netip.ParseAddr`, the Cloudflare API) are modelled at
their boundary: a lookup task's outcome is an `Except` value, a provider
call's outcome is a boolean/`Except` parameter, and a DNS record carries the
parse outcome of its textual content.
-/

deriving instance DecidableEq for Except

namespace Ddns

/-- Model of Go `netip.Addr`: an IPv4 address (four octets) or an IPv6
address (its 128-bit value).  Equality is exact value equality. -/
inductive Addr where
  | v4 (b0 b1 b2 b3 : Nat)
  | v6 (n : Nat)
deriving DecidableEq, Repr

/-- Go `netip.Addr.Is4`. -/
def Addr.is4 : Addr → Bool
  | .v4 _ _ _ _ => true
  | .v6 _ => false

/-- Go `netip.Addr.Is6`. -/
def Addr.is6 : Addr → Bool
  | .v4 _ _ _ _ => false
  | .v6 _ => true

/-- Go `netip.Addr.IsLoopback`: an IPv4 address in 127.0.0.0/8, or the
IPv6 loopback ::1. -/
def Addr.isLoopback : Addr → Bool
  | .v4 b0 _ _ _ => b0 == 127
  | .v6 n => n == 1

/-! ## webResolver (src/unnamed/part_004, func (wr *webResolver) Resolve)

A lookup task's report is `Except E Addr`: `.ok a` models a lookup that
returned address `a`, `.error e` models a failed lookup (`E` is the
error type).  The supervising loop consumes reports in arrival order. -/

/-- The error component of `webResolver.Resolve`'s return value. -/
inductive WebErr (E : Type) where
  /-- "no external IP lookup services were provided" -/
  | noServices
  /-- "not enough resolvers responded without errors", wrapping the join
  of every individual lookup error. -/
  | insufficient (errs : List E)
  /-- "IP resolvers did not agree on our IP" -/
  | disagree
deriving DecidableEq, Repr

/-- `useCount` from the `switch len(URLs)` in `webResolver.Resolve`:
number of lookup requests issued. -/
def useCount (n : Nat) : Nat :=
  match n with
  | 1 => 1
  | 2 => 2
  | _ => 3

/-- `waitFor` from the `switch len(URLs)` in `webResolver.Resolve`:
number of successful responses required to agree. -/
def waitFor (n : Nat) : Nat :=
  match n with
  | 1 => 1
  | _ => 2

/-- The endpoints the `useCount` spawned tasks target:
`URLs[i%resolvercount]` for `i < useCount` (round-robin reuse). -/
def requestTargets (urls : List String) : List String :=
  (List.range (useCount urls.length)).map (fun i => urls.getD (i % urls.length) "")

/-- The supervising consumer loop of `webResolver.Resolve`
(`for r := range results { ... }` and the two failure returns after it),
with the loop state made explicit: `w` is `waitFor`, `ip` the recorded
first address (`none` models the zero `netip.Addr{}`), `resultCount`
the count of successful lookups seen, `errs` the accumulated errors.
Returns the `([]netip.Addr, error)` pair. -/
def resolveLoop (w : Nat) (ip : Option Addr) (resultCount : Nat) (errs : List E) :
    List (Except E Addr) → List Addr × Option (WebErr E)
  | [] =>
    if resultCount < w then ([], some (.insufficient errs)) else ([], some .disagree)
  | .error e :: rest => resolveLoop w ip resultCount (errs ++ [e]) rest
  | .ok a :: rest =>
    match ip with
    | none =>
      if w = 1 then ([a], none)
      else resolveLoop w (some a) (resultCount + 1) errs rest
    | some b =>
      if b = a then ([b], none)
      else resolveLoop w (some b) (resultCount + 1) errs rest

/-- `webResolver.Resolve`: the nil-URL guard, then the consumer loop over
the task reports in arrival order (`arrivals`).  URL parsing never fails
for well-formed configured URLs, and by `chanRun_no_drop` below the
result channel (capacity `useCount`) delivers every report, so a complete
run has `arrivals.length = useCount urls.length`; the function is defined
for any arrival list. -/
def webResolve (urls : List String) (arrivals : List (Except E Addr)) :
    List Addr × Option (WebErr E) :=
  if urls = [] then ([], some .noServices)
  else resolveLoop (waitFor urls.length) none 0 [] arrivals

/-! Spec-side helpers used to state the quorum claims (defined from the
spec's words, independently of the loop above). -/

/-- The first successfully received address, in arrival order. -/
def firstOk : List (Except E Addr) → Option Addr
  | [] => none
  | .ok a :: _ => some a
  | .error _ :: rest => firstOk rest

/-- Number of successful lookups in a report list. -/
def okCount : List (Except E Addr) → Nat
  | [] => 0
  | .ok _ :: rest => okCount rest + 1
  | .error _ :: rest => okCount rest

/-- The individual lookup errors, in arrival order. -/
def errsOf : List (Except E Addr) → List E
  | [] => []
  | .ok _ :: rest => errsOf rest
  | .error e :: rest => e :: errsOf rest

/-- The agreed address, when some successful result after the first
successful one equals the first: `some a` when the first success is `a`
and a later success also reports `a`, else `none`. -/
def agreed [DecidableEq E] : List (Except E Addr) → Option Addr
  | [] => none
  | .error _ :: rest => agreed rest
  | .ok a :: rest => if (Except.ok a : Except E Addr) ∈ rest then some a else none

/-! ## The result channel (`results := make(chan result, useCount)`)

Producers send with `select { case results <- r: default: }`: a
non-blocking send that enqueues when the buffer is below capacity and
silently drops the value otherwise.  The consumer receives in FIFO order.
A run of the channel is an arbitrary interleaving of send and receive
events. -/

inductive ChanEvent (α : Type) where
  | send (a : α)
  | recv
deriving DecidableEq, Repr

/-- Run a buffered channel of capacity `cap` over an event trace, starting
from buffer `q`.  A `send` enqueues if the buffer is below capacity and is
dropped otherwise; a `recv` dequeues the oldest element (a receive on an
empty buffer blocks in Go, modelled as a no-op here since the consumer
would simply be rescheduled).  Returns
(delivered-to-consumer list, dropped list, final buffer). -/
def chanRun (cap : Nat) : List (ChanEvent α) → List α → List α × List α × List α
  | [], q => ([], [], q)
  | .send a :: es, q =>
    if q.length < cap then chanRun cap es (q ++ [a])
    else
      let (r, d, f) := chanRun cap es q
      (r, a :: d, f)
  | .recv :: es, q =>
    match q with
    | [] => chanRun cap es []
    | x :: q' =>
      let (r, d, f) := chanRun cap es q'
      (x :: r, d, f)

/-- The values sent over a trace, in send order. -/
def sendsOf : List (ChanEvent α) → List α
  | [] => []
  | .send a :: es => a :: sendsOf es
  | .recv :: es => sendsOf es

/-! ## RunDaemon (src/ddns.go, func RunDaemon)

A cycle's outcome is classified through two `errors.As` probes.
`authn = some b` models: `errors.As(err, &authentication)` found an error
implementing `IsAuthenticationError() bool` and the call returned `b`;
`authn = none` models an unsuccessful probe (in particular `err == nil`).
Likewise `authz` for `IsAuthorizationError`. -/

structure CycleOutcome where
  authn : Option Bool
  authz : Option Bool
deriving DecidableEq, Repr

/-- A cycle outcome on which `RunDaemon` returns: the authentication probe
fired, or (otherwise) the authorization probe fired. -/
def fatalOutcome (o : CycleOutcome) : Bool :=
  o.authn = some true || o.authz = some true

/-- The daemon loop, run against the sequence of cycle outcomes the ticks
would produce (the governing context is never cancelled during the run;
the outcome list length is the number of ticks considered).  Returns the
outcomes of the cycles actually executed, in order: each iteration runs
one cycle, returns if its outcome is fatal, and otherwise waits for the
next tick. -/
def runDaemon : List CycleOutcome → List CycleOutcome
  | [] => []
  | o :: rest => if fatalOutcome o then [o] else o :: runDaemon rest

/-! ## cloudflareProvider.SetDNSRecords (src/cloudflare.go)

The Cloudflare API is modelled at its boundary:
`zone` is the outcome of `getZoneIDFromDomain` (`none` = lookup failed),
`listResult` the outcome of `ListDNSRecords` (on error the library
returns a nil record slice; note the source discards this error:
`records, _, err := cf.api.ListDNSRecords(...)` with `err` never
checked), `delFails`/`createFails` give each mutation call's outcome.
A record's `Content` string is represented by its `netip.ParseAddr`
outcome (`none` = unparseable). -/

structure DNSRecord where
  id : Nat
  content : Option Addr
deriving DecidableEq, Repr

/-- A provider mutation issued by `SetDNSRecords`, in issue order. -/
inductive CFOp where
  | deleteRecord (id : Nat)
  | createRecord (rtype : String) (name : String) (content : Addr) (ttl : Nat) (comment : String)
deriving DecidableEq, Repr

def CFOp.isDelete : CFOp → Bool
  | .deleteRecord _ => true
  | _ => false

def CFOp.isCreate : CFOp → Bool
  | .createRecord _ _ _ _ _ => true
  | _ => false

inductive CFErr where
  | zoneErr
  | parseErr
  | deleteErr (id : Nat)
  | createErr (a : Addr)
deriving DecidableEq, Repr

/-- `func recordType(a netip.Addr) string`: "A" when `a.Is4()`, "AAAA"
when `a.Is6()` (the final branch of the source panics on the zero
address, which `Addr` does not represent). -/
def recordType (a : Addr) : String :=
  if a.is4 then "A" else "AAAA"

/-- The comment set by `newCloudflareProvider`. -/
def managedComment : String := "managed by ddns"

/-- The first loop of `SetDNSRecords` (over `records`): parse each
record's content (aborting on a parse error), add the address to the
`existing` set, keep records whose address is in the desired set
(`newAddrs`) and delete the rest, aborting on a delete failure.
Returns (ops issued, final existing set, error). -/
def deleteLoop (delFails : Nat → Bool) (desired : List Addr) :
    List DNSRecord → List Addr → List CFOp × List Addr × Option CFErr
  | [], ex => ([], ex, none)
  | r :: rs, ex =>
    match r.content with
    | none => ([], ex, some .parseErr)
    | some a =>
      if a ∈ desired then deleteLoop delFails desired rs (ex ++ [a])
      else
        if delFails r.id then
          ([.deleteRecord r.id], ex ++ [a], some (.deleteErr r.id))
        else
          (CFOp.deleteRecord r.id :: (deleteLoop delFails desired rs (ex ++ [a])).1,
           (deleteLoop delFails desired rs (ex ++ [a])).2.1,
           (deleteLoop delFails desired rs (ex ++ [a])).2.2)

/-- The second loop of `SetDNSRecords` (over `addrs`): skip addresses
already in `existing`, create a record for the rest (kind from
`recordType`, TTL 60, the management comment), aborting on a create
failure. -/
def createLoop (createFails : Addr → Bool) (existing : List Addr) (domain : String) :
    List Addr → List CFOp × Option CFErr
  | [] => ([], none)
  | a :: as =>
    if a ∈ existing then createLoop createFails existing domain as
    else
      if createFails a then
        ([.createRecord (recordType a) domain a 60 managedComment], some (.createErr a))
      else
        (CFOp.createRecord (recordType a) domain a 60 managedComment
           :: (createLoop createFails existing domain as).1,
         (createLoop createFails existing domain as).2)

/-- `cloudflareProvider.SetDNSRecords`: zone lookup, record listing with
the listing error discarded (a failed listing yields a nil slice, ranged
as empty), the delete loop, then the create loop.  Returns the mutations
issued, in order, and the error returned to the caller. -/
def SetDNSRecords (zone : Option String) (listResult : Except Unit (List DNSRecord))
    (delFails : Nat → Bool) (createFails : Addr → Bool)
    (domain : String) (addrs : List Addr) : List CFOp × Option CFErr :=
  match zone with
  | none => ([], some .zoneErr)
  | some _ =>
    let records := match listResult with | .ok rs => rs | .error _ => []
    match (deleteLoop delFails addrs records []).2.2 with
    | some e => ((deleteLoop delFails addrs records []).1, some e)
    | none =>
      ((deleteLoop delFails addrs records []).1
         ++ (createLoop createFails (deleteLoop delFails addrs records []).2.1
              domain addrs).1,
       (createLoop createFails (deleteLoop delFails addrs records []).2.1 domain addrs).2)

/-! ## joinResolver.Resolve (src/ddns.go, func (r joinResolver) Resolve)

Each member resolver's outcome is a pair (addresses, optional error).
The loop appends every member's addresses and collects every error;
`errors.Join` drops nil members, so the aggregated error is modelled as
the list of non-nil member errors (empty list = nil aggregated error). -/

def joinResolve : List (List Addr × Option E) → List Addr × List E
  | [] => ([], [])
  | (as, e) :: rest =>
    let (as', es') := joinResolve rest
    (as ++ as', e.toList ++ es')

/-! ## stringResolver.Resolve and localResolver.Resolve

`stringResolver.Resolve` parses its fixed string with `netip.ParseAddr`
(modelled by its outcome `p`) and returns the parsed address with no
further checks.  `localResolver.Resolve` walks the interface addresses
(each given by its `netip.ParsePrefix` outcome), collecting parse
failures as errors, skipping loopback addresses, and appending the
rest. -/

def stringResolve (p : Option Addr) : Except Unit (List Addr) :=
  match p with
  | none => .error ()
  | some a => .ok [a]

/-- `localResolver.Resolve` over the parse outcomes of the interface
address list; returns (addresses, number of parse errors collected). -/
def localResolve : List (Option Addr) → List Addr × Nat
  | [] => ([], 0)
  | none :: rest =>
    let (as, e) := localResolve rest
    (as, e + 1)
  | some a :: rest =>
    let (as, e) := localResolve rest
    (if a.isLoopback then as else a :: as, e)

/-! ## Lemmas about the quorum consumer loop -/

/-- Once a first address `ip` is recorded and `waitFor = 2`, the loop
succeeds with `ip` exactly when a later success reports `ip`; otherwise
it fails by the final success count. -/
theorem resolveLoop_some_eq [DecidableEq E] (ip : Addr) (c : Nat) (errs : List E)
    (rs : List (Except E Addr)) :
    resolveLoop 2 (some ip) c errs rs =
      if (Except.ok ip : Except E Addr) ∈ rs then ([ip], none)
      else if c + okCount rs < 2 then ([], some (WebErr.insufficient (errs ++ errsOf rs)))
      else ([], some .disagree) := by
  induction rs generalizing c errs with
  | nil => simp [resolveLoop, okCount, errsOf]
  | cons r rest ih =>
    cases r with
    | error e =>
      simp only [resolveLoop, ih, okCount, errsOf, List.mem_cons, List.append_assoc,
        List.singleton_append, reduceCtorEq, false_or]
    | ok a =>
      by_cases hab : ip = a
      · subst hab
        simp [resolveLoop, okCount, errsOf]
      · simp only [resolveLoop]
        rw [if_neg (by exact fun h => hab h)]
        rw [ih]
        have hmem : ((Except.ok ip : Except E Addr) ∈ Except.ok a :: rest) ↔
            ((Except.ok ip : Except E Addr) ∈ rest) := by
          simp only [List.mem_cons, Except.ok.injEq]
          exact or_iff_right hab
        rw [show okCount (Except.ok a :: rest) = okCount rest + 1 from rfl]
        rw [show errsOf (Except.ok a :: rest) = errsOf rest from rfl]
        by_cases hm : (Except.ok ip : Except E Addr) ∈ rest
        · rw [if_pos hm, if_pos (hmem.mpr hm)]
        · rw [if_neg hm, if_neg (fun h => hm (hmem.mp h))]
          have : c + 1 + okCount rest = c + (okCount rest + 1) := by omega
          rw [this]

/-- The full loop with `waitFor = 2`: agreement (in arrival order) yields
the first recorded address; otherwise failure, classified by the number
of successful lookups. -/
theorem resolveLoop_none_eq [DecidableEq E] (errs : List E) (rs : List (Except E Addr)) :
    resolveLoop 2 none 0 errs rs =
      match agreed rs with
      | some a => ([a], none)
      | none =>
        if okCount rs < 2 then ([], some (WebErr.insufficient (errs ++ errsOf rs)))
        else ([], some .disagree) := by
  induction rs generalizing errs with
  | nil => simp [resolveLoop, agreed, okCount, errsOf]
  | cons r rest ih =>
    cases r with
    | error e =>
      show resolveLoop 2 none 0 (errs ++ [e]) rest = _
      rw [ih]
      rw [show agreed (Except.error e :: rest) = agreed rest from rfl]
      cases agreed rest with
      | some a => rfl
      | none =>
        rw [show okCount (Except.error e :: rest) = okCount rest from rfl]
        rw [show errsOf (Except.error e :: rest) = e :: errsOf rest from rfl]
        simp [List.append_assoc]
    | ok a =>
      show resolveLoop 2 (some a) 1 errs rest = _
      rw [resolveLoop_some_eq]
      rw [show agreed (Except.ok a :: rest) =
        (if (Except.ok a : Except E Addr) ∈ rest then some a else none) from rfl]
      by_cases hm : (Except.ok a : Except E Addr) ∈ rest
      · rw [if_pos hm, if_pos hm]
      · rw [if_neg hm, if_neg hm]
        rw [show okCount (Except.ok a :: rest) = okCount rest + 1 from rfl]
        rw [show errsOf (Except.ok a :: rest) = errsOf rest from rfl]
        exact if_congr (by omega) rfl rfl

/-- `waitFor n = 2` for every endpoint count other than 1. -/
theorem waitFor_of_two_le (n : Nat) (h : 2 ≤ n) : waitFor n = 2 := by
  match n, h with
  | n + 2, _ => rfl

/-- C1.  QuorumResolver outcome: for every sequence of per-task lookup
reports in arrival order (with at least two configured endpoints, so
`waitFor = 2`), `Resolve` succeeds returning exactly the first
successfully received address as soon as a later successful report
equals it (`agreed`); if the reports run out without such a match it
returns zero addresses, failing with the "insufficient successful
responses" error joining every individual lookup failure when the
success count is below `waitFor`, and with the "endpoints disagreed"
error otherwise. -/
theorem quorum_outcome_characterization [DecidableEq E] (urls : List String)
    (h : 2 ≤ urls.length) (arrivals : List (Except E Addr)) :
    webResolve urls arrivals =
      match agreed arrivals with
      | some a => ([a], none)
      | none =>
        if okCount arrivals < waitFor urls.length
        then ([], some (WebErr.insufficient (errsOf arrivals)))
        else ([], some .disagree) := by
  have hne : urls ≠ [] := by
    intro hnil
    rw [hnil] at h
    exact absurd h (by decide)
  rw [webResolve, if_neg hne, waitFor_of_two_le urls.length h, resolveLoop_none_eq]
  cases agreed arrivals with
  | some a => rfl
  | none => rw [List.nil_append]

/-- Witness for C1: three endpoints, reports `A`, failure, `A` — the loop
succeeds with `A`, the first successfully received address. -/
theorem quorum_outcome_characterization_witness :
    webResolve (E := Nat) ["e1", "e2", "e3"]
        [.ok (.v4 192 168 2 1), .error 7, .ok (.v4 192 168 2 1)]
      = ([Addr.v4 192 168 2 1], none) := by
  rw [quorum_outcome_characterization (E := Nat) ["e1", "e2", "e3"] (by decide)]
  decide

/-- C3.  The issue/agreement counts derive from the endpoint-list length
as the spec's table states, the single-endpoint resolver issues exactly
one request to its endpoint, and with one endpoint `Resolve` succeeds if
and only if the single lookup succeeds, returning exactly its address. -/
theorem quorum_counts_table [DecidableEq E] :
    (useCount 1 = 1 ∧ waitFor 1 = 1) ∧
    (useCount 2 = 2 ∧ waitFor 2 = 2) ∧
    (∀ n, 3 ≤ n → useCount n = 3 ∧ waitFor n = 2) ∧
    (∀ (u : String) (r : Except E Addr),
      requestTargets [u] = [u] ∧
      webResolve [u] [r] =
        match r with
        | .ok a => ([a], none)
        | .error e => ([], some (WebErr.insufficient [e]))) := by
  refine ⟨⟨rfl, rfl⟩, ⟨rfl, rfl⟩, ?_, ?_⟩
  · intro n hn
    match n, hn with
    | n + 3, _ => exact ⟨rfl, rfl⟩
  · intro u r
    refine ⟨rfl, ?_⟩
    cases r with
    | ok a => rfl
    | error e => rfl

/-- Witness for C3: the third conjunct at `n = 5` and the fourth at a
concrete endpoint and report. -/
theorem quorum_counts_table_witness :
    (useCount 5 = 3 ∧ waitFor 5 = 2) ∧
    (requestTargets ["e"] = ["e"] ∧
      webResolve (E := Nat) ["e"] [.ok (.v4 192 168 2 1)]
        = ([Addr.v4 192 168 2 1], none)) :=
  ⟨(quorum_counts_table (E := Nat)).2.2.1 5 (by decide),
   (quorum_counts_table (E := Nat)).2.2.2 "e" (.ok (.v4 192 168 2 1))⟩

/-- C7 counterexample.  The quorum-web source performs no loopback
filtering: two endpoints agreeing on `127.0.0.1` make `Resolve` succeed
with the loopback address, and the literal-address source likewise
returns a parsed loopback address successfully. -/
theorem no_loopback_counterexample :
    webResolve (E := Nat) ["u1", "u2"]
        [.ok (.v4 127 0 0 1), .ok (.v4 127 0 0 1)]
      = ([Addr.v4 127 0 0 1], none) ∧
    stringResolve (some (.v4 127 0 0 1)) = .ok [Addr.v4 127 0 0 1] ∧
    (Addr.v4 127 0 0 1).isLoopback = true := by
  exact ⟨by decide, rfl, by decide⟩

/-- C7 amended.  Of the package's address sources, the local-interface
source does guarantee the invariant: every address it returns is
non-loopback (loopback interface addresses are skipped); the
literal-address and quorum-web sources perform no loopback filtering. -/
theorem local_no_loopback_amended (adds : List (Option Addr)) (a : Addr)
    (h : a ∈ (localResolve adds).1) : a.isLoopback = false := by
  induction adds with
  | nil => exact absurd h (by simp [localResolve])
  | cons p rest ih =>
    cases p with
    | none =>
      apply ih
      simpa [localResolve] using h
    | some b =>
      by_cases hb : b.isLoopback
      · apply ih
        simpa [localResolve, hb] using h
      · rw [localResolve] at h
        simp only [if_neg hb] at h
        rcases List.mem_cons.mp h with hba | hm
        · rw [hba]
          exact Bool.of_not_eq_true hb
        · exact ih hm

/-- Witness for C7's amended theorem: a concrete interface list with a
loopback entry, a parse failure, and an ordinary address. -/
theorem local_no_loopback_amended_witness : (Addr.v4 192 168 2 1).isLoopback = false :=
  local_no_loopback_amended
    [some (.v4 127 0 0 1), none, some (.v4 192 168 2 1)]
    (Addr.v4 192 168 2 1) (by decide)

/-! ## The result channel never drops a report -/

/-- Generalized channel invariant: as long as the values sent plus the
initial buffer fit within the capacity, nothing is dropped and the
consumer's view (deliveries plus the final buffer, drained after close)
is the buffer followed by the sends, in order. -/
theorem chanRun_no_drop (cap : Nat) (es : List (ChanEvent α)) (q : List α)
    (h : (sendsOf es).length + q.length ≤ cap) :
    (chanRun cap es q).2.1 = [] ∧
    (chanRun cap es q).1 ++ (chanRun cap es q).2.2 = q ++ sendsOf es := by
  induction es generalizing q with
  | nil => simp [chanRun, sendsOf]
  | cons e es ih =>
    cases e with
    | send a =>
      have hs : sendsOf (ChanEvent.send a :: es) = a :: sendsOf es := rfl
      rw [hs, List.length_cons] at h
      have hq : q.length < cap := by omega
      have hrec := ih (q ++ [a]) (by simp only [List.length_append, List.length_singleton]; omega)
      rw [show chanRun cap (ChanEvent.send a :: es) q =
        (if q.length < cap then chanRun cap es (q ++ [a])
         else
           let (r, d, f) := chanRun cap es q
           (r, a :: d, f)) from rfl]
      rw [if_pos hq, hs]
      exact ⟨hrec.1, by rw [hrec.2, List.append_assoc, List.singleton_append]⟩
    | recv =>
      have hs : sendsOf (ChanEvent.recv :: es) = sendsOf es := rfl
      rw [hs] at h
      cases q with
      | nil =>
        have hrec := ih [] (by simpa using h)
        rw [show chanRun cap (ChanEvent.recv :: es) [] = chanRun cap es [] from rfl, hs]
        exact hrec
      | cons x q' =>
        have hrec := ih q' (by simp only [List.length_cons] at h; omega)
        rw [show chanRun cap (ChanEvent.recv :: es) (x :: q') =
          (let (r, d, f) := chanRun cap es q'
           (x :: r, d, f)) from rfl]
        rw [hs]
        refine ⟨hrec.1, ?_⟩
        show x :: (chanRun cap es q').1 ++ (chanRun cap es q').2.2 = x :: q' ++ sendsOf es
        rw [List.cons_append, hrec.2]
        rfl

/-- C10.  With the result channel sized to `useCount` (as the source's
`make(chan result, useCount)` does) and one report sent per spawned
task, the drop-on-full send never drops a report: for every interleaving
of the `useCount` sends with consumer receives, nothing lands in the
dropped list, the consumer observes every task's report in send order
(deliveries plus the buffer drained before close), and the verdict is
therefore `webResolve` applied to the full report sequence. -/
theorem channel_no_drop [DecidableEq E] (urls : List String)
    (es : List (ChanEvent (Except E Addr)))
    (h : (sendsOf es).length ≤ useCount urls.length) :
    (chanRun (useCount urls.length) es []).2.1 = [] ∧
    (chanRun (useCount urls.length) es []).1 ++ (chanRun (useCount urls.length) es []).2.2
      = sendsOf es ∧
    webResolve urls
        ((chanRun (useCount urls.length) es []).1 ++ (chanRun (useCount urls.length) es []).2.2)
      = webResolve urls (sendsOf es) := by
  have hmain := chanRun_no_drop (useCount urls.length) es []
    (by simpa using h)
  refine ⟨hmain.1, by simpa using hmain.2, ?_⟩
  rw [show (chanRun (useCount urls.length) es []).1 ++ (chanRun (useCount urls.length) es []).2.2
    = sendsOf es from by simpa using hmain.2]

/-- Witness for C10: three endpoints (`useCount = 3`), three task reports
with an interleaved receive; nothing is dropped and the consumer sees
all three reports in send order. -/
theorem channel_no_drop_witness :
    (chanRun (useCount (["e1", "e2", "e3"] : List String).length)
        ([.send (.ok (.v4 192 168 2 1)), .send (.error 7), .recv,
          .send (.ok (.v4 192 168 2 1))] : List (ChanEvent (Except Nat Addr))) []).2.1 = [] :=
  (channel_no_drop ["e1", "e2", "e3"]
    [.send (.ok (.v4 192 168 2 1)), .send (.error 7), .recv,
     .send (.ok (.v4 192 168 2 1))] (by decide)).1

/-! ## Daemon stop policy -/

/-- C5.  In a daemon run whose earlier cycles all end non-fatally, a
cycle whose error is classified as an authentication or authorization
failure (`fatalOutcome`) terminates the loop — no cycle after it is ever
started — while a run whose cycles all end non-fatally (other errors or
no error) continues through every available tick. -/
theorem daemon_stop_policy (pre post : List CycleOutcome) (o : CycleOutcome)
    (hpre : ∀ x ∈ pre, fatalOutcome x = false) :
    (fatalOutcome o = true → runDaemon (pre ++ o :: post) = pre ++ [o]) ∧
    (fatalOutcome o = false → runDaemon (pre ++ [o]) = pre ++ [o]) := by
  induction pre with
  | nil =>
    constructor
    · intro hf
      simp [runDaemon, hf]
    · intro hf
      simp [runDaemon, hf]
  | cons x pre ih =>
    have hx : fatalOutcome x = false := hpre x (List.mem_cons_self x pre)
    have hrest := ih (fun y hy => hpre y (List.mem_cons_of_mem x hy))
    constructor
    · intro hf
      show runDaemon (x :: (pre ++ o :: post)) = x :: (pre ++ [o])
      rw [runDaemon, if_neg (by rw [hx]; exact Bool.false_ne_true), hrest.1 hf]
    · intro hf
      show runDaemon (x :: (pre ++ [o])) = x :: (pre ++ [o])
      rw [runDaemon, if_neg (by rw [hx]; exact Bool.false_ne_true), hrest.2 hf]

/-- Witness for C5: one non-fatal cycle, then an authentication-classified
failure; the third planned cycle is never started. -/
theorem daemon_stop_policy_witness :
    runDaemon [⟨none, none⟩, ⟨some true, none⟩, ⟨none, none⟩]
      = [⟨none, none⟩, ⟨some true, none⟩] :=
  (daemon_stop_policy [⟨none, none⟩] [⟨none, none⟩] ⟨some true, none⟩
    (by intro x hx; simp at hx; rw [hx]; rfl)).1 rfl

/-! ## Lemmas about the reconciliation loops

For the diff claims the existing record set is quantified through
(id, parsed address) pairs, injected as records whose content parses. -/

/-- The delete loop on an all-parseable record list with every delete
call succeeding: it deletes exactly the records whose address is not
desired and accumulates every record address into `existing`. -/
theorem deleteLoop_clean (desired : List Addr) (rs : List (Nat × Addr)) (ex : List Addr) :
    deleteLoop (fun _ => false) desired (rs.map fun p => ⟨p.1, some p.2⟩) ex =
      ((rs.filter fun p => decide (p.2 ∉ desired)).map (fun p => CFOp.deleteRecord p.1),
       ex ++ rs.map Prod.snd, none) := by
  induction rs generalizing ex with
  | nil => simp [deleteLoop]
  | cons p rest ih =>
    obtain ⟨i, a⟩ := p
    by_cases hd : a ∈ desired
    · show deleteLoop (fun _ => false) desired (⟨i, some a⟩ :: rest.map fun p => ⟨p.1, some p.2⟩)
        ex = _
      rw [deleteLoop]
      simp only [if_pos hd]
      rw [ih (ex ++ [a])]
      simp [hd, List.append_assoc]
    · show deleteLoop (fun _ => false) desired (⟨i, some a⟩ :: rest.map fun p => ⟨p.1, some p.2⟩)
        ex = _
      rw [deleteLoop]
      simp only [if_neg hd, Bool.false_eq_true, if_false]
      rw [ih (ex ++ [a])]
      simp [hd, List.append_assoc]

/-- The create loop with every create call succeeding: it creates exactly
one record per address not already existing, with the kind from
`recordType`, TTL 60 and the management comment. -/
theorem createLoop_clean (existing : List Addr) (domain : String) (addrs : List Addr) :
    createLoop (fun _ => false) existing domain addrs =
      ((addrs.filter fun a => decide (a ∉ existing)).map
         (fun a => CFOp.createRecord (recordType a) domain a 60 managedComment), none) := by
  induction addrs with
  | nil => simp [createLoop]
  | cons a rest ih =>
    by_cases hx : a ∈ existing
    · rw [createLoop]
      simp only [if_pos hx]
      rw [ih]
      simp [hx]
    · rw [createLoop]
      simp only [if_neg hx, Bool.false_eq_true, if_false]
      rw [ih]
      simp [hx]

/-- Unfolding of `SetDNSRecords` when the zone lookup succeeded. -/
theorem setDNSRecords_some (z : String) (listResult : Except Unit (List DNSRecord))
    (delFails : Nat → Bool) (createFails : Addr → Bool) (domain : String)
    (addrs : List Addr) :
    SetDNSRecords (some z) listResult delFails createFails domain addrs =
      (match (deleteLoop delFails addrs
          (match listResult with | .ok rs => rs | .error _ => []) []).2.2 with
       | some e =>
         ((deleteLoop delFails addrs
             (match listResult with | .ok rs => rs | .error _ => []) []).1, some e)
       | none =>
         ((deleteLoop delFails addrs
             (match listResult with | .ok rs => rs | .error _ => []) []).1
            ++ (createLoop createFails
                 (deleteLoop delFails addrs
                   (match listResult with | .ok rs => rs | .error _ => []) []).2.1
                 domain addrs).1,
          (createLoop createFails
            (deleteLoop delFails addrs
              (match listResult with | .ok rs => rs | .error _ => []) []).2.1
            domain addrs).2)) := rfl

/-- `SetDNSRecords` on a clean run (zone found, listing succeeded, every
record parseable, every mutation call succeeding): the mutation list is
the deletes of the undesired existing records followed by the creates of
the missing desired addresses. -/
theorem setDNSRecords_clean (z domain : String) (addrs : List Addr) (rs : List (Nat × Addr)) :
    SetDNSRecords (some z) (.ok (rs.map fun p => ⟨p.1, some p.2⟩))
        (fun _ => false) (fun _ => false) domain addrs
      = ((rs.filter fun p => decide (p.2 ∉ addrs)).map (fun p => CFOp.deleteRecord p.1)
          ++ (addrs.filter fun a => decide (a ∉ rs.map Prod.snd)).map
              (fun a => CFOp.createRecord (recordType a) domain a 60 managedComment),
         none) := by
  rw [setDNSRecords_some]
  simp only [deleteLoop_clean addrs rs [], createLoop_clean, List.nil_append]

/-- C2.  Reconciliation diff: on a clean cycle the engine deletes exactly
the existing records whose parsed address is not desired (by their
opaque identifier), creates exactly one record per desired address
missing from the existing set by value — kind `A` for an IPv4 address,
`AAAA` for an IPv6 address, TTL 60 and the fixed management comment —
and issues no operation for addresses present in both sets. -/
theorem reconcile_diff_exact (z domain : String) (addrs : List Addr)
    (rs : List (Nat × Addr)) (hnd : addrs.Nodup) :
    SetDNSRecords (some z) (.ok (rs.map fun p => ⟨p.1, some p.2⟩))
        (fun _ => false) (fun _ => false) domain addrs
      = ((rs.filter fun p => decide (p.2 ∉ addrs)).map (fun p => CFOp.deleteRecord p.1)
          ++ (addrs.filter fun a => decide (a ∉ rs.map Prod.snd)).map
              (fun a => CFOp.createRecord (recordType a) domain a 60 managedComment),
         none) ∧
    (addrs.filter fun a => decide (a ∉ rs.map Prod.snd)).Nodup ∧
    (∀ b0 b1 b2 b3, recordType (.v4 b0 b1 b2 b3) = "A") ∧
    (∀ n, recordType (.v6 n) = "AAAA") :=
  ⟨setDNSRecords_clean z domain addrs rs, hnd.filter _,
   fun _ _ _ _ => rfl, fun _ => rfl⟩

/-- Witness for C2: existing records for 1.2.3.4 (id 10) and 9.9.9.9
(id 11), desired {1.2.3.4, 5.6.7.8}: exactly one delete (id 11) and one
create (5.6.7.8, kind A). -/
theorem reconcile_diff_exact_witness :
    SetDNSRecords (some "z")
        (.ok (([(10, Addr.v4 1 2 3 4), (11, Addr.v4 9 9 9 9)] : List (Nat × Addr)).map
          fun p => ⟨p.1, some p.2⟩))
        (fun _ => false) (fun _ => false) "example.com"
        [Addr.v4 1 2 3 4, Addr.v4 5 6 7 8]
      = ([CFOp.deleteRecord 11,
          CFOp.createRecord "A" "example.com" (Addr.v4 5 6 7 8) 60 managedComment],
         none) := by
  rw [(reconcile_diff_exact "z" "example.com" [Addr.v4 1 2 3 4, Addr.v4 5 6 7 8]
    [(10, Addr.v4 1 2 3 4), (11, Addr.v4 9 9 9 9)] (by decide)).1]
  decide

/-- C4.  Reconciliation idempotence: when the existing record addresses
are already set-equal to the desired set, a cycle issues zero create and
zero delete operations. -/
theorem reconcile_idempotent (z domain : String) (addrs : List Addr)
    (rs : List (Nat × Addr)) (hset : ∀ a : Addr, a ∈ addrs ↔ a ∈ rs.map Prod.snd) :
    SetDNSRecords (some z) (.ok (rs.map fun p => ⟨p.1, some p.2⟩))
        (fun _ => false) (fun _ => false) domain addrs
      = ([], none) := by
  rw [setDNSRecords_clean]
  have h1 : (rs.filter fun p => decide (p.2 ∉ addrs)) = [] := by
    rw [List.filter_eq_nil_iff]
    intro p hp
    simp only [decide_eq_true_eq, not_not]
    exact (hset p.2).mpr (List.mem_map_of_mem Prod.snd hp)
  have h2 : (addrs.filter fun a => decide (a ∉ rs.map Prod.snd)) = [] := by
    rw [List.filter_eq_nil_iff]
    intro a ha
    simp only [decide_eq_true_eq, not_not]
    exact (hset a).mp ha
  rw [h1, h2]
  rfl

/-- Witness for C4: existing = desired = {1.2.3.4, 5.6.7.8} (in either
order) issues no mutation. -/
theorem reconcile_idempotent_witness :
    SetDNSRecords (some "z")
        (.ok (([(10, Addr.v4 5 6 7 8), (11, Addr.v4 1 2 3 4)] : List (Nat × Addr)).map
          fun p => ⟨p.1, some p.2⟩))
        (fun _ => false) (fun _ => false) "example.com"
        [Addr.v4 1 2 3 4, Addr.v4 5 6 7 8]
      = ([], none) :=
  reconcile_idempotent "z" "example.com" [Addr.v4 1 2 3 4, Addr.v4 5 6 7 8]
    [(10, Addr.v4 5 6 7 8), (11, Addr.v4 1 2 3 4)]
    (by
      intro a
      simp only [List.map_cons, List.map_nil, List.mem_cons, List.not_mem_nil, or_false]
      tauto)

/-- C6.  A failed record listing is not surfaced: the listing error is
discarded (the source never checks it), the run is identical to a run
that listed zero records, so nothing is deleted, a create is attempted
for every desired address, and the call returns nil when the creates
succeed. -/
theorem list_failure_discarded (z domain : String) (addrs : List Addr)
    (delFails : Nat → Bool) (createFails : Addr → Bool) :
    SetDNSRecords (some z) (.error ()) delFails createFails domain addrs
      = SetDNSRecords (some z) (.ok []) delFails createFails domain addrs ∧
    SetDNSRecords (some z) (.error ()) delFails (fun _ => false) domain addrs
      = (addrs.map fun a => CFOp.createRecord (recordType a) domain a 60 managedComment,
         none) := by
  refine ⟨rfl, ?_⟩
  have hunfold : SetDNSRecords (some z) (.error ()) delFails (fun _ => false) domain addrs
      = ((createLoop (fun _ => false) [] domain addrs).1,
         (createLoop (fun _ => false) [] domain addrs).2) := rfl
  rw [hunfold, createLoop_clean]
  have hfil : (addrs.filter fun a => decide (a ∉ ([] : List Addr))) = addrs := by
    induction addrs with
    | nil => rfl
    | cons a rest ih => simp [List.filter, ih]
  simp only [hfil]

/-- C8.  Delete-before-create ordering: in every run of a reconciliation
cycle — any zone/listing outcome, any parse outcomes, any mutation
failures — the issued mutation sequence is a block of deletes followed
by a block of creates. -/
theorem deletes_before_creates (zone : Option String)
    (listResult : Except Unit (List DNSRecord)) (delFails : Nat → Bool)
    (createFails : Addr → Bool) (domain : String) (addrs : List Addr) :
    ∃ d c, (SetDNSRecords zone listResult delFails createFails domain addrs).1 = d ++ c ∧
      (∀ op ∈ d, op.isDelete = true) ∧ (∀ op ∈ c, op.isCreate = true) := by
  have hdel : ∀ (records : List DNSRecord) (ex : List Addr),
      ∀ op ∈ (deleteLoop delFails addrs records ex).1, op.isDelete = true := by
    intro records
    induction records with
    | nil => intro ex op hop; exact absurd hop (by simp [deleteLoop])
    | cons r rest ih =>
      obtain ⟨i, c⟩ := r
      intro ex op hop
      cases c with
      | none => exact absurd hop (by simp [deleteLoop])
      | some a =>
        simp only [deleteLoop] at hop
        by_cases hd : a ∈ addrs
        · rw [if_pos hd] at hop
          exact ih (ex ++ [a]) op hop
        · rw [if_neg hd] at hop
          by_cases hf : delFails i
          · rw [if_pos hf] at hop
            simp only [List.mem_singleton] at hop
            rw [hop]; rfl
          · rw [if_neg hf] at hop
            rcases List.mem_cons.mp hop with h | h
            · rw [h]; rfl
            · exact ih (ex ++ [a]) op h
  have hcre : ∀ (existing : List Addr) (l : List Addr),
      ∀ op ∈ (createLoop createFails existing domain l).1, op.isCreate = true := by
    intro existing l
    induction l with
    | nil => intro op hop; exact absurd hop (by simp [createLoop])
    | cons a rest ih =>
      intro op hop
      rw [createLoop] at hop
      by_cases hx : a ∈ existing
      · rw [if_pos hx] at hop
        exact ih op hop
      · rw [if_neg hx] at hop
        by_cases hf : createFails a
        · rw [if_pos hf] at hop
          simp only [List.mem_singleton] at hop
          rw [hop]; rfl
        · rw [if_neg hf] at hop
          rcases List.mem_cons.mp hop with h | h
          · rw [h]; rfl
          · exact ih op h
  cases zone with
  | none => exact ⟨[], [], rfl, by simp, by simp⟩
  | some z =>
    rw [setDNSRecords_some]
    cases herr : (deleteLoop delFails addrs
        (match listResult with | .ok rs => rs | .error _ => []) []).2.2 with
    | some e =>
      exact ⟨_, [], (List.append_nil _).symm, fun op hop => hdel _ [] op hop, by simp⟩
    | none =>
      exact ⟨_, _, rfl, fun op hop => hdel _ [] op hop,
        fun op hop => hcre _ addrs op hop⟩

/-- C9.  Join accumulation: the combinator returns the concatenation of
every member's addresses (duplicates preserved) and the join of every
non-nil member error; in particular every member's addresses embed into
the result, so one member's failure never drops another's addresses. -/
theorem join_accumulates (rs : List (List Addr × Option E)) :
    joinResolve rs = ((rs.map Prod.fst).flatten, rs.filterMap Prod.snd) ∧
    ∀ r ∈ rs, List.Sublist r.1 (joinResolve rs).1 := by
  induction rs with
  | nil => exact ⟨rfl, by simp⟩
  | cons p rest ih =>
    obtain ⟨as, e⟩ := p
    cases hj : joinResolve rest with
    | mk A B =>
      have hcons : joinResolve ((as, e) :: rest) = (as ++ A, e.toList ++ B) := by
        rw [joinResolve, hj]
      rw [hj] at ih
      constructor
      · rw [hcons]
        rw [show ((((as, e) :: rest).map Prod.fst).flatten) = as ++ (rest.map Prod.fst).flatten
          from by simp]
        rw [show (((as, e) :: rest).filterMap Prod.snd) = e.toList ++ rest.filterMap Prod.snd
          from by cases e <;> simp [List.filterMap_cons]]
        have h1 : A = (rest.map Prod.fst).flatten := congrArg Prod.fst ih.1
        have h2 : B = rest.filterMap Prod.snd := congrArg Prod.snd ih.1
        rw [h1, h2]
      · intro r hr
        rw [hcons]
        rcases List.mem_cons.mp hr with h | h
        · rw [h]
          exact List.sublist_append_left as A
        · exact List.Sublist.trans (ih.2 r h) (List.sublist_append_right as A)

/-- Witness for C9: a successful IPv4 member, a failed member, and a
member with duplicate addresses — everything is accumulated. -/
theorem join_accumulates_witness :
    joinResolve (E := Nat)
        [([Addr.v4 1 2 3 4], none), ([], some 4), ([Addr.v6 1, Addr.v6 1], none)]
      = ([Addr.v4 1 2 3 4, Addr.v6 1, Addr.v6 1], [4]) := by
  rw [(join_accumulates (E := Nat)
    [([Addr.v4 1 2 3 4], none), ([], some 4), ([Addr.v6 1, Addr.v6 1], none)]).1]
  decide

end Ddns
